import Mathlib

/-!
Verification of the architecture-quality pipeline scripts.

The development shallowly embeds the pure decision logic of the three
scripts of the repository:
  outsystems/pipeline/check_architecture_quality.py  (quality gate),
  outsystems/pipeline/get_architectural_debt.py      (locator, overview
  scraper, record builder),
  PDF/get_pdf_tech_debt.py                           (regex extraction).
Strings are modelled as lists of characters; ASCII behaviour of the
Python string methods (lower, upper, isalnum, isdigit) is assumed, which
covers every input the claims mention.  File, HTTP and markup-tree I/O
are external capabilities; the embedding starts from their decoded
results (a loaded artifact, a parsed page, extracted page text).  A call
of sys.exit(1) is modelled as a distinguished failure value (a none
result or a non-passing outcome with exit code 1).
-/

namespace ArchPipeline

/-- Embeds the hyphen-stripping lower-casing normalisation used by
get_app_by_name in get_architectural_debt.py: the Python expression
s.replace("-", "").lower().  Removing hyphens commutes with ASCII
lower-casing, so the filter-then-map order is equivalent. -/
def normalizeHyphen (s : List Char) : List Char :=
  (s.filter (fun c => c ≠ '-')).map Char.toLower

/-- Embeds the nested helper normalize(s) of
get_architecture_metrics_from_overview: join of every alphanumeric
character of s.lower(), that is lower-case first, then keep only the
alphanumeric characters. -/
def normalize (s : List Char) : List Char :=
  (s.map Char.toLower).filter Char.isAlphanum

/-- Boolean test that the first list is an initial segment of the
second, used to embed the Python substring operator. -/
def startsWith : List Char → List Char → Bool
  | [], _ => true
  | _ :: _, [] => false
  | a :: as, b :: bs => a == b && startsWith as bs

/-- Boolean contiguous-substring test: containsSub needle hay is true
exactly when needle occurs contiguously inside hay.  Embeds the Python
membership test needle in hay on strings. -/
def containsSub (needle : List Char) : List Char → Bool
  | [] => needle.isEmpty
  | b :: bs => startsWith needle (b :: bs) || containsSub needle bs

/-- A record of the applications.cache directory.  Python reads the
fields with dict.get, so both are optional; get_app_by_name substitutes
the empty string for a missing Name. -/
structure App where
  Key : Option (List Char)
  Name : Option (List Char)
  deriving DecidableEq

/-- Embeds get_app_by_name of get_architectural_debt.py: normalise the
target once, scan the directory in order and return the first record
whose normalised Name equals the normalised target, or none. -/
def get_app_by_name (apps : List App) (target_name : List Char) : Option App :=
  apps.find? (fun app => normalizeHyphen (app.Name.getD []) == normalizeHyphen target_name)

/-- The sentinel string N/A used for absent rating and debt fields. -/
def nA : List Char := "N/A".toList

/-- The decoded arch-debt.json artifact as read by
check_architecture_quality.py.  Both fields are read with dict.get, so
they are optional here; total_violations is modelled after the int(...)
coercion the script applies. -/
structure Artifact where
  architecture_rating : Option (List Char)
  total_violations : Option Int
  deriving DecidableEq

/-- The fixed rating order of check_architecture_quality.py:
rating_order = [A, B, C, D, E, F]. -/
def rating_order : List (List Char) :=
  [['A'], ['B'], ['C'], ['D'], ['E'], ['F']]

/-- The hard-coded threshold min_rating = B of the script. -/
def min_rating : List Char := ['B']

/-- The hard-coded threshold max_violations = 5 of the script. -/
def max_violations : Int := 5

/-- The uppercased rating the script computes:
data.get("architecture_rating", "").upper(). -/
def artifactRating (a : Artifact) : List Char :=
  (a.architecture_rating.getD []).map Char.toUpper

/-- The violation count the script computes:
int(data.get("total_violations", 0)). -/
def artifactViolations (a : Artifact) : Int :=
  a.total_violations.getD 0

/-- Embeds Python list.index on the rating order; membership is checked
by the script before every use, so the default-to-length fallback of
findIdx is never reached on the guarded path. -/
def pyIndex (l : List (List Char)) (a : List Char) : Nat :=
  l.findIdx (fun x => x == a)

/-- Outcome of the quality-gate script after the artifact is decoded.
unknownRating models the print of the unknown-rating diagnostic followed
by sys.exit(1); gateFailed models the failed-gate diagnostic, which
prints both the rating comparison (actual rating and required minimum)
and the violation comparison (actual count and maximum allowed), then
sys.exit(1); gatePassed models the success prints and exit code 0. -/
inductive CheckOutcome where
  | unknownRating (rating : List Char)
  | gateFailed (rating minR : List Char) (violations maxV : Int)
  | gatePassed (rating : List Char) (violations : Int)
  deriving DecidableEq

/-- Process exit status attached to each outcome of the script. -/
def exitCode : CheckOutcome → Nat
  | .gatePassed _ _ => 0
  | _ => 1

/-- True exactly on the policy-failure outcome. -/
def isGateFailed : CheckOutcome → Bool
  | .gateFailed _ _ _ _ => true
  | _ => false

/-- True exactly on the passing outcome. -/
def isPassed : CheckOutcome → Bool
  | .gatePassed _ _ => true
  | _ => false

/-- Embeds the decision part of main in check_architecture_quality.py:
if the uppercased rating is not in rating_order, report the
unknown-rating diagnostic and exit 1; otherwise fail the gate when the
rating index is strictly greater than the min_rating index or the
violation count exceeds max_violations, and pass otherwise. -/
def checkMain (a : Artifact) : CheckOutcome :=
  if artifactRating a ∉ rating_order then
    .unknownRating (artifactRating a)
  else if pyIndex rating_order (artifactRating a) > pyIndex rating_order min_rating ∨
      artifactViolations a > max_violations then
    .gateFailed (artifactRating a) min_rating (artifactViolations a) max_violations
  else
    .gatePassed (artifactRating a) (artifactViolations a)

/-- Python whitespace class for str.strip and the regex class \s,
restricted to ASCII: space, tab, newline, carriage return, vertical tab
and form feed. -/
def isSpacePy (c : Char) : Bool :=
  c == ' ' || c == '\t' || c == '\n' || c == '\r' || c == '\x0b' || c == '\x0c'

/-- ASCII decimal digit test, the regex class \d of the scripts. -/
def isDigitPy (c : Char) : Bool :=
  c.isDigit

/-- Value of a list of decimal digits, most significant first; the
numeric core of the Python int conversion on a digit string. -/
def digitsToNat (s : List Char) : Nat :=
  s.foldl (fun n c => 10 * n + (c.toNat - 48)) 0

/-- Embeds the Python int(s) conversion on ASCII text: surrounding
whitespace is ignored, an optional single sign precedes a non-empty run
of decimal digits; anything else raises ValueError, modelled as none.
Digit-group underscores and non-ASCII digits are outside the inputs this
development considers. -/
def parseIntPy (s : List Char) : Option Int :=
  let t := ((s.dropWhile isSpacePy).reverse.dropWhile isSpacePy).reverse
  match t with
  | [] => none
  | '+' :: ds =>
      if ds ≠ [] ∧ ds.all isDigitPy then some (digitsToNat ds) else none
  | '-' :: ds =>
      if ds ≠ [] ∧ ds.all isDigitPy then some (-(digitsToNat ds : Int)) else none
  | ds =>
      if ds.all isDigitPy then some (digitsToNat ds) else none

/-- A card element of the overview page, as seen through the markup-tree
capability: its whole extracted text, and the stripped texts of the
structurally specific sub-elements the scraper queries (none when the
query finds no element).  scoresContainer holds the stripped texts of
the direct children of the scores container when that container exists. -/
structure Card where
  text : List Char
  ratingElem : Option (List Char)
  violElem : Option (List Char)
  debtElem : Option (List Char)
  scoresContainer : Option (List (List Char))
  deriving DecidableEq

/-- The parsed overview page: the optional text of the selected-label
control (class multiselect-label has-selected-opts) and the card
elements (div.card) in document order. -/
structure OverviewPage where
  selectedLabel : Option (List Char)
  cards : List Card
  deriving DecidableEq

/-- The raw metrics dictionary returned by
get_architecture_metrics_from_overview.  The scraper itself fills every
key; the fields are optional because main later reads them with
dict.get and because the spec treats raw fields as a partial record. -/
structure RawFields where
  ArchitectureRating : Option (List Char)
  TotalViolations : Option Int
  TechnicalDebtPercent : Option (List Char)
  Scores : Option (List (List Char))
  SelectedApplicationName : Option (List Char)
  deriving DecidableEq

/-- Embeds the field-scraping tail of
get_architecture_metrics_from_overview, applied to the matched card:
rating defaults to N/A when the architecture-rating element is absent;
the violation count defaults to 0 when the total-violations element is
absent or its text fails int conversion, the latter case emitting a
warning (the Bool component); the debt percent defaults to N/A; the
scores are the non-empty child texts of the scores container, empty when
the container is absent. -/
def scrapeCard (card : Card) (selectedLabel : List Char) : RawFields × Bool :=
  let architecture_rating := card.ratingElem.getD nA
  let viols : Int × Bool :=
    match card.violElem with
    | none => (0, false)
    | some t =>
        match parseIntPy t with
        | some v => (v, false)
        | none => (0, true)
  let technical_debt_percent := card.debtElem.getD nA
  let scores : List (List Char) :=
    match card.scoresContainer with
    | none => []
    | some kids => kids.filter (fun t => t ≠ [])
  (⟨some architecture_rating, some viols.1, some technical_debt_percent,
    some scores, some selectedLabel⟩, viols.2)

/-- Embeds the resolution part of get_architecture_metrics_from_overview
after the page is fetched and parsed: take the selected-label text when
the control exists, otherwise fall back to the caller-supplied
application name; normalise it; scan the cards in order and take the
first card whose normalised text has the normalised target as a
contiguous substring; scrape that card, or exit 1 (none) when no card
matches. -/
def get_architecture_metrics_from_overview (page : OverviewPage)
    (app_name : List Char) : Option (RawFields × Bool) :=
  let selectedLabel := page.selectedLabel.getD app_name
  let norm_target := normalize selectedLabel
  match page.cards.find? (fun card => containsSub norm_target (normalize card.text)) with
  | none => none
  | some card => some (scrapeCard card selectedLabel)

/-- The persisted metrics record main of get_architectural_debt.py
writes to the output JSON file. -/
structure MetricsRecord where
  application_id : Option (List Char)
  application_name : Option (List Char)
  architecture_rating : List Char
  total_violations : Int
  technical_debt_percent : List Char
  scores : List (List Char)
  deriving DecidableEq

/-- Embeds the result-building step of main in
get_architectural_debt.py: every metrics field is read with dict.get and
its type-appropriate default (N/A, 0 or the empty list). -/
def buildResult (app_id app_name : Option (List Char))
    (metrics : RawFields) : MetricsRecord :=
  { application_id := app_id
    application_name := app_name
    architecture_rating := metrics.ArchitectureRating.getD nA
    total_violations := metrics.TotalViolations.getD 0
    technical_debt_percent := metrics.TechnicalDebtPercent.getD nA
    scores := metrics.Scores.getD [] }

/-- Token language sufficient for the regex of get_pdf_tech_debt.py:
a literal character, a greedy one-or-more character class, a greedy
optional character, and a greedy one-or-more capture group over a
character class (the pattern has a single group). -/
inductive RTok where
  | lit (c : Char)
  | plus (p : Char → Bool)
  | opt (c : Char)
  | grp (p : Char → Bool)

mutual

/-- Backtracking matcher for a token sequence against an initial segment
of the input, with the greedy semantics of the Python re module: some g
when the sequence matches some initial segment, g being the text of the
capture group (empty when no group occurs in the sequence). -/
def reMatch : List RTok → List Char → Option (List Char)
  | [], _ => some []
  | RTok.lit _ :: _, [] => none
  | RTok.lit c :: ts, a :: rest =>
      if a = c then reMatch ts rest else none
  | RTok.opt _ :: ts, [] => reMatch ts []
  | RTok.opt c :: ts, a :: rest =>
      if a = c then
        match reMatch ts rest with
        | some g => some g
        | none => reMatch ts (a :: rest)
      else reMatch ts (a :: rest)
  | RTok.plus _ :: _, [] => none
  | RTok.plus p :: ts, a :: rest =>
      if p a then rePlus p ts rest else none
  | RTok.grp _ :: _, [] => none
  | RTok.grp p :: ts, a :: rest =>
      if p a then reGrp p ts [a] rest else none
termination_by ts input => (input.length, 2 * ts.length)
decreasing_by
  all_goals simp_wf
  all_goals first
  | exact Prod.Lex.left _ _ (by omega)
  | exact Prod.Lex.right _ (by omega)

/-- Greedy continuation of a one-or-more class: consume further class
characters first and backtrack to the remaining tokens on failure. -/
def rePlus (p : Char → Bool) (ts : List RTok) : List Char → Option (List Char)
  | [] => reMatch ts []
  | a :: rest =>
      if p a then
        match rePlus p ts rest with
        | some g => some g
        | none => reMatch ts (a :: rest)
      else reMatch ts (a :: rest)
termination_by input => (input.length, 2 * ts.length + 1)
decreasing_by
  all_goals simp_wf
  all_goals first
  | exact Prod.Lex.left _ _ (by omega)
  | exact Prod.Lex.right _ (by omega)

/-- Greedy continuation of the capture group: like rePlus but records
the consumed characters and reports them as the capture on success. -/
def reGrp (p : Char → Bool) (ts : List RTok) (acc : List Char) :
    List Char → Option (List Char)
  | [] => (reMatch ts []).map (fun _ => acc)
  | a :: rest =>
      if p a then
        match reGrp p ts (acc ++ [a]) rest with
        | some g => some g
        | none => (reMatch ts (a :: rest)).map (fun _ => acc)
      else (reMatch ts (a :: rest)).map (fun _ => acc)
termination_by input => (input.length, 2 * ts.length + 1)
decreasing_by
  all_goals simp_wf
  all_goals first
  | exact Prod.Lex.left _ _ (by omega)
  | exact Prod.Lex.right _ (by omega)

end

/-- Embeds re.search: try the pattern at every start position from the
left and return the leftmost (and there greediest) match, none when no
position matches. -/
def reSearch (toks : List RTok) : List Char → Option (List Char)
  | [] => reMatch toks []
  | a :: rest =>
      match reMatch toks (a :: rest) with
      | some g => some g
      | none => reSearch toks rest

/-- The pattern of get_pdf_tech_debt.py, token by token:
Total, then in turn whitespace, digits, whitespace, digits, whitespace,
digits with an optional percent sign, whitespace, the captured digits,
and the final literal percent sign. -/
def totalPat : List RTok :=
  [RTok.lit 'T', RTok.lit 'o', RTok.lit 't', RTok.lit 'a', RTok.lit 'l',
   RTok.plus isSpacePy, RTok.plus isDigitPy,
   RTok.plus isSpacePy, RTok.plus isDigitPy,
   RTok.plus isSpacePy, RTok.plus isDigitPy, RTok.opt '%',
   RTok.plus isSpacePy, RTok.grp isDigitPy, RTok.lit '%']

/-- Embeds extract_technical_debt of get_pdf_tech_debt.py on the
concatenated page text: search the whole text for the pattern and
convert the captured digits with int; a failed search prints the
diagnostic and calls sys.exit(1), modelled as none. -/
def extract_technical_debt (text : List Char) : Option Nat :=
  (reSearch totalPat text).map digitsToNat

/-- Line view of a text, splitting on newline characters; used only to
state claims that speak about lines of the extracted PDF text. -/
def linesOf : List Char → List (List Char)
  | [] => [[]]
  | c :: rest =>
      if c = '\n' then [] :: linesOf rest
      else
        match linesOf rest with
        | [] => [[c]]
        | l :: ls => (c :: l) :: ls

/-- The Boolean initial-segment test agrees with the existence of a
completing tail. -/
theorem startsWith_iff (n h : List Char) :
    startsWith n h = true ↔ ∃ t, h = n ++ t := by
  induction n generalizing h with
  | nil =>
      constructor
      · intro _
        exact ⟨h, rfl⟩
      · intro _
        rfl
  | cons a as ih =>
      cases h with
      | nil => simp [startsWith]
      | cons b bs =>
          simp only [startsWith, Bool.and_eq_true, beq_iff_eq, ih,
            List.cons_append, List.cons.injEq]
          constructor
          · rintro ⟨rfl, t, rfl⟩
            exact ⟨t, rfl, rfl⟩
          · rintro ⟨t, rfl, rfl⟩
            exact ⟨rfl, t, rfl⟩

/-- The Boolean substring test agrees with a contiguous-occurrence
decomposition of the haystack. -/
theorem containsSub_iff (n h : List Char) :
    containsSub n h = true ↔ ∃ p t, h = p ++ n ++ t := by
  induction h with
  | nil =>
      simp only [containsSub, List.isEmpty_iff]
      constructor
      · rintro rfl
        exact ⟨[], [], rfl⟩
      · rintro ⟨p, t, hpt⟩
        rcases List.append_eq_nil.mp (List.append_eq_nil.mp hpt.symm).1 with ⟨-, h2⟩
        exact h2
  | cons b bs ih =>
      simp only [containsSub, Bool.or_eq_true, startsWith_iff, ih]
      constructor
      · rintro (⟨t, ht⟩ | ⟨p, t, ht⟩)
        · exact ⟨[], t, by simpa using ht⟩
        · exact ⟨b :: p, t, by simp [ht]⟩
      · rintro ⟨p, t, hpt⟩
        cases p with
        | nil =>
            refine Or.inl ⟨t, ?_⟩
            simpa using hpt
        | cons x xs =>
            refine Or.inr ⟨xs, t, ?_⟩
            injection hpt with h1 h2

/-- Specification of List.find?: a found element satisfies the
predicate and is the first such element of the list. -/
theorem find?_first {α : Type} {p : α → Bool} {l : List α} {b : α}
    (h : l.find? p = some b) :
    p b = true ∧ ∃ pre post, l = pre ++ b :: post ∧ ∀ x ∈ pre, p x = false := by
  induction l with
  | nil => simp [List.find?] at h
  | cons a t ih =>
      by_cases hp : p a = true
      · rw [List.find?_cons_of_pos _ hp] at h
        obtain rfl : a = b := by injection h
        exact ⟨hp, [], t, rfl, by simp⟩
      · rw [List.find?_cons_of_neg _ (by simpa using hp)] at h
        obtain ⟨hb, pre, post, rfl, hpre⟩ := ih h
        refine ⟨hb, a :: pre, post, rfl, ?_⟩
        intro x hx
        rcases List.mem_cons.mp hx with rfl | hx
        · simpa using hp
        · exact hpre x hx

/-- A search fails exactly when the pattern matches at no start
position of the input. -/
theorem reSearch_eq_none_iff (toks : List RTok) (s : List Char) :
    reSearch toks s = none ↔
      ∀ i, i ≤ s.length → reMatch toks (s.drop i) = none := by
  induction s with
  | nil =>
      constructor
      · intro h i _
        have h0 : reMatch toks [] = none := by simpa [reSearch] using h
        simpa using h0
      · intro h
        have := h 0 (by simp)
        simpa [reSearch] using this
  | cons a rest ih =>
      constructor
      · intro h i hi
        have hsplit : reMatch toks (a :: rest) = none ∧ reSearch toks rest = none := by
          cases hm : reMatch toks (a :: rest) with
          | some g =>
              simp [reSearch, hm] at h
          | none =>
              simp only [reSearch, hm] at h
              exact ⟨rfl, h⟩
        cases i with
        | zero => simpa using hsplit.1
        | succ j =>
            have := (ih.mp hsplit.2) j (by simpa using Nat.le_of_succ_le_succ hi)
            simpa [List.drop_succ_cons] using this
      · intro h
        have h0 := h 0 (by simp)
        simp only [List.drop_zero] at h0
        simp only [reSearch, h0]
        refine ih.mpr ?_
        intro j hj
        have := h (j + 1) (by simpa using Nat.succ_le_succ hj)
        simpa [List.drop_succ_cons] using this

/-- A successful search reports the match of the leftmost matching
start position. -/
theorem reSearch_eq_some {toks : List RTok} {s g : List Char}
    (h : reSearch toks s = some g) :
    ∃ i, i ≤ s.length ∧ reMatch toks (s.drop i) = some g ∧
      ∀ j, j < i → reMatch toks (s.drop j) = none := by
  induction s with
  | nil =>
      refine ⟨0, by simp, ?_, fun j hj => absurd hj (by omega)⟩
      simpa [reSearch] using h
  | cons a rest ih =>
      cases hm : reMatch toks (a :: rest) with
      | some g2 =>
          simp only [reSearch, hm, Option.some.injEq] at h
          obtain rfl : g2 = g := h
          exact ⟨0, by simp, by simpa using hm, fun j hj => absurd hj (by omega)⟩
      | none =>
          simp only [reSearch, hm] at h
          obtain ⟨i, hi, hmi, hlt⟩ := ih h
          refine ⟨i + 1, by simpa using Nat.succ_le_succ hi,
            by simpa [List.drop_succ_cons] using hmi, ?_⟩
          intro j hj
          cases j with
          | zero => simpa using hm
          | succ k => simpa [List.drop_succ_cons] using hlt k (by omega)

/-- C1: for every artifact whose uppercased rating is one of A..F, the
gate with thresholds min_rating B and max_violations 5 fails exactly
when the rating index is strictly greater than the index of B or the
violation count exceeds 5, and passes otherwise; the boundary is
inclusive: rating B with 5 violations passes, A with 3 passes, C with 3
fails, B with 9 fails. -/
theorem C1_quality_gate_boundary :
    (∀ a : Artifact, artifactRating a ∈ rating_order →
      ((isGateFailed (checkMain a) = true ↔
          pyIndex rating_order (artifactRating a) > pyIndex rating_order min_rating ∨
            artifactViolations a > max_violations) ∧
        (isPassed (checkMain a) = true ↔
          ¬(pyIndex rating_order (artifactRating a) > pyIndex rating_order min_rating ∨
            artifactViolations a > max_violations)))) ∧
    isPassed (checkMain ⟨some ['B'], some 5⟩) = true ∧
    isPassed (checkMain ⟨some ['A'], some 3⟩) = true ∧
    isGateFailed (checkMain ⟨some ['C'], some 3⟩) = true ∧
    isGateFailed (checkMain ⟨some ['B'], some 9⟩) = true := by
  refine ⟨?_, by decide, by decide, by decide, by decide⟩
  intro a h
  rw [checkMain, if_neg (not_not_intro h)]
  by_cases hc : pyIndex rating_order (artifactRating a) > pyIndex rating_order min_rating ∨
      artifactViolations a > max_violations
  · rw [if_pos hc]
    exact ⟨iff_of_true rfl hc, iff_of_false (by simp [isPassed]) (not_not_intro hc)⟩
  · rw [if_neg hc]
    exact ⟨iff_of_false (by simp [isGateFailed]) hc, iff_of_true rfl hc⟩

/-- Witness for C1 at the concrete failing record with rating c and 3
violations. -/
theorem C1_quality_gate_boundary_witness :
    artifactRating ⟨some ['c'], some 3⟩ ∈ rating_order ∧
      (isGateFailed (checkMain ⟨some ['c'], some 3⟩) = true ↔
        pyIndex rating_order (artifactRating ⟨some ['c'], some 3⟩) >
            pyIndex rating_order min_rating ∨
          artifactViolations ⟨some ['c'], some 3⟩ > max_violations) :=
  ⟨by decide, (C1_quality_gate_boundary.1 ⟨some ['c'], some 3⟩ (by decide)).1⟩

/-- C2: for every artifact whose uppercased rating is not one of the six
letters A..F, the evaluator reports the unknown-rating diagnostic and
exit status 1, and the outcome is neither a policy failure nor a pass. -/
theorem C2_unknown_rating_distinct (a : Artifact)
    (h : artifactRating a ∉ rating_order) :
    checkMain a = .unknownRating (artifactRating a) ∧
      exitCode (checkMain a) = 1 ∧
      isGateFailed (checkMain a) = false ∧
      isPassed (checkMain a) = false := by
  rw [checkMain, if_pos h]
  exact ⟨rfl, rfl, rfl, rfl⟩

/-- Witness for C2 at the concrete record with rating Z and 0
violations. -/
theorem C2_unknown_rating_distinct_witness :
    artifactRating ⟨some ['Z'], some 0⟩ ∉ rating_order ∧
      (checkMain ⟨some ['Z'], some 0⟩ =
          .unknownRating (artifactRating ⟨some ['Z'], some 0⟩) ∧
        exitCode (checkMain ⟨some ['Z'], some 0⟩) = 1 ∧
        isGateFailed (checkMain ⟨some ['Z'], some 0⟩) = false ∧
        isPassed (checkMain ⟨some ['Z'], some 0⟩) = false) :=
  ⟨by decide, C2_unknown_rating_distinct ⟨some ['Z'], some 0⟩ (by decide)⟩

/-- C9: every failing evaluation carries both the rating comparison
(actual rating and required minimum) and the violation comparison
(actual count and maximum allowed) in its explanation, whichever
condition caused the failure; in particular a violations-only failure
(B, 9) and a rating-only failure (C, 3) both report both comparisons. -/
theorem C9_failure_reports_both_comparisons :
    (∀ a : Artifact, isGateFailed (checkMain a) = true →
        checkMain a =
          .gateFailed (artifactRating a) min_rating (artifactViolations a) max_violations) ∧
    checkMain ⟨some ['B'], some 9⟩ = .gateFailed ['B'] min_rating 9 max_violations ∧
    checkMain ⟨some ['C'], some 3⟩ = .gateFailed ['C'] min_rating 3 max_violations := by
  refine ⟨?_, by decide, by decide⟩
  intro a h
  rw [checkMain] at h ⊢
  by_cases h1 : artifactRating a ∉ rating_order
  · rw [if_pos h1] at h
    exact absurd h (by simp [isGateFailed])
  · rw [if_neg h1] at h ⊢
    by_cases h2 : pyIndex rating_order (artifactRating a) > pyIndex rating_order min_rating ∨
        artifactViolations a > max_violations
    · rw [if_pos h2]
    · rw [if_neg h2] at h
      exact absurd h (by simp [isGateFailed])

/-- Witness for C9 at the concrete record with rating B and 9
violations. -/
theorem C9_failure_reports_both_comparisons_witness :
    isGateFailed (checkMain ⟨some ['B'], some 9⟩) = true ∧
      checkMain ⟨some ['B'], some 9⟩ =
        .gateFailed (artifactRating ⟨some ['B'], some 9⟩) min_rating
          (artifactViolations ⟨some ['B'], some 9⟩) max_violations :=
  ⟨by decide, C9_failure_reports_both_comparisons.1 ⟨some ['B'], some 9⟩ (by decide)⟩

/-- C10: an artifact whose architecture_rating key is absent, or holds
the empty string, is evaluated as the empty rating, which is not among
A..F, so the evaluator always reports the unknown-rating diagnostic and
exit status 1, never a pass and never a policy failure. -/
theorem C10_missing_rating_never_passes (a : Artifact)
    (h : a.architecture_rating = none ∨ a.architecture_rating = some []) :
    checkMain a = .unknownRating [] ∧
      exitCode (checkMain a) = 1 ∧
      isPassed (checkMain a) = false ∧
      isGateFailed (checkMain a) = false := by
  have hr : artifactRating a = [] := by
    rcases h with h | h <;> simp [artifactRating, h]
  rw [checkMain, hr, if_pos (by decide)]
  exact ⟨rfl, rfl, rfl, rfl⟩

/-- Witness for C10 at the concrete artifact with no rating key and 3
violations. -/
theorem C10_missing_rating_never_passes_witness :
    checkMain ⟨none, some 3⟩ = .unknownRating [] ∧
      exitCode (checkMain ⟨none, some 3⟩) = 1 ∧
      isPassed (checkMain ⟨none, some 3⟩) = false ∧
      isGateFailed (checkMain ⟨none, some 3⟩) = false :=
  C10_missing_rating_never_passes ⟨none, some 3⟩ (Or.inl rfl)

/-- C3: the locator returns the first record whose hyphen-stripped
lower-cased Name equals the normalised target, returns none when no
record matches, and on the example directory target alpha-app yields
the first record while target Gamma yields none. -/
theorem C3_locator_first_normalized_match :
    (∀ (apps : List App) (target : List Char) (r : App),
        get_app_by_name apps target = some r →
          normalizeHyphen (r.Name.getD []) = normalizeHyphen target ∧
            ∃ pre post, apps = pre ++ r :: post ∧
              ∀ x ∈ pre, normalizeHyphen (x.Name.getD []) ≠ normalizeHyphen target) ∧
    (∀ (apps : List App) (target : List Char),
        get_app_by_name apps target = none ↔
          ∀ x ∈ apps, normalizeHyphen (x.Name.getD []) ≠ normalizeHyphen target) ∧
    get_app_by_name
        [⟨some "1".toList, some "Alpha-App".toList⟩, ⟨some "2".toList, some "Beta".toList⟩]
        "alpha-app".toList = some ⟨some "1".toList, some "Alpha-App".toList⟩ ∧
    get_app_by_name
        [⟨some "1".toList, some "Alpha-App".toList⟩, ⟨some "2".toList, some "Beta".toList⟩]
        "Gamma".toList = none := by
  refine ⟨?_, ?_, by decide, by decide⟩
  · intro apps target r h
    obtain ⟨hb, pre, post, rfl, hpre⟩ := find?_first h
    refine ⟨by simpa using hb, pre, post, rfl, ?_⟩
    intro x hx
    have := hpre x hx
    simpa using this
  · intro apps target
    rw [get_app_by_name, List.find?_eq_none]
    constructor
    · intro h x hx
      have := h x hx
      simpa using this
    · intro h x hx
      have := h x hx
      simpa using this

/-- Witness for C3 at the example directory and target alpha-app. -/
theorem C3_locator_first_normalized_match_witness :
    normalizeHyphen ((App.mk (some "1".toList) (some "Alpha-App".toList)).Name.getD []) =
        normalizeHyphen "alpha-app".toList ∧
      ∃ pre post,
        [App.mk (some "1".toList) (some "Alpha-App".toList),
          App.mk (some "2".toList) (some "Beta".toList)] =
            pre ++ App.mk (some "1".toList) (some "Alpha-App".toList) :: post ∧
          ∀ x ∈ pre, normalizeHyphen (x.Name.getD []) ≠ normalizeHyphen "alpha-app".toList :=
  C3_locator_first_normalized_match.1
    [⟨some "1".toList, some "Alpha-App".toList⟩, ⟨some "2".toList, some "Beta".toList⟩]
    "alpha-app".toList ⟨some "1".toList, some "Alpha-App".toList⟩ (by decide)

/-- C6: the strict alphanumeric normaliser maps My-App, myapp and
My App! to the same canonical string, while the hyphen-stripping
normaliser identifies My-App with myapp but sends My App! elsewhere. -/
theorem C6_two_normalizers :
    normalize "My-App".toList = normalize "myapp".toList ∧
      normalize "myapp".toList = normalize "My App!".toList ∧
      normalizeHyphen "My-App".toList = normalizeHyphen "myapp".toList ∧
      normalizeHyphen "My App!".toList ≠ normalizeHyphen "My-App".toList := by
  refine ⟨by decide, by decide, by decide, by decide⟩

/-- C7: inside a matched card the scraper never fails on a field: an
absent rating element yields N/A, an absent violations element yields 0,
an absent debt element yields N/A, an absent scores container yields the
empty sequence, and a violations element whose text does not parse as an
integer yields 0 together with a warning while the scraper still
produces a full record. -/
theorem C7_card_fields_default :
    (∀ (c : Card) (lbl : List Char), c.ratingElem = none →
        (scrapeCard c lbl).1.ArchitectureRating = some nA) ∧
    (∀ (c : Card) (lbl : List Char), c.violElem = none →
        (scrapeCard c lbl).1.TotalViolations = some 0 ∧ (scrapeCard c lbl).2 = false) ∧
    (∀ (c : Card) (lbl : List Char), c.debtElem = none →
        (scrapeCard c lbl).1.TechnicalDebtPercent = some nA) ∧
    (∀ (c : Card) (lbl : List Char), c.scoresContainer = none →
        (scrapeCard c lbl).1.Scores = some []) ∧
    (∀ (c : Card) (lbl t : List Char), c.violElem = some t → parseIntPy t = none →
        (scrapeCard c lbl).1.TotalViolations = some 0 ∧ (scrapeCard c lbl).2 = true) := by
  refine ⟨?_, ?_, ?_, ?_, ?_⟩
  · intro c lbl h
    simp [scrapeCard, h]
  · intro c lbl h
    simp [scrapeCard, h]
  · intro c lbl h
    simp [scrapeCard, h]
  · intro c lbl h
    simp [scrapeCard, h]
  · intro c lbl t h hp
    simp [scrapeCard, h, hp]

/-- Witness for C7 at a concrete card whose violations element holds the
unparseable text abc. -/
theorem C7_card_fields_default_witness :
    (scrapeCard ⟨[], none, some "abc".toList, none, none⟩ []).1.TotalViolations = some 0 ∧
      (scrapeCard ⟨[], none, some "abc".toList, none, none⟩ []).2 = true :=
  C7_card_fields_default.2.2.2.2 ⟨[], none, some "abc".toList, none, none⟩ []
    "abc".toList rfl (by decide)

/-- C8: building the persisted record from raw fields that contain only
an ArchitectureRating of B yields rating B, 0 violations, debt percent
N/A and an empty score sequence, for every resolved identity. -/
theorem C8_builder_defaults (app_id app_name : Option (List Char)) :
    buildResult app_id app_name ⟨some ['B'], none, none, none, none⟩ =
      ⟨app_id, app_name, ['B'], 0, nA, []⟩ := by
  rfl

/-- C4: the overview adapter selects the first card whose normalised
full text has the normalised target as a contiguous substring, exits
with a failure (none) exactly when no card contains the target, and the
card with full text Acme Suite Architecture Rating: B is selected for
the normalised target acmesuite even though the normalised texts are not
equal. -/
theorem C4_overview_substring_selection :
    (∀ (page : OverviewPage) (app_name : List Char),
        get_architecture_metrics_from_overview page app_name = none ↔
          ∀ card ∈ page.cards,
            ¬∃ p t, normalize card.text =
              p ++ normalize (page.selectedLabel.getD app_name) ++ t) ∧
    (∀ (page : OverviewPage) (app_name : List Char) (r : RawFields × Bool),
        get_architecture_metrics_from_overview page app_name = some r →
          ∃ pre card post, page.cards = pre ++ card :: post ∧
            (∃ p t, normalize card.text =
              p ++ normalize (page.selectedLabel.getD app_name) ++ t) ∧
            (∀ c ∈ pre, ¬∃ p t, normalize c.text =
              p ++ normalize (page.selectedLabel.getD app_name) ++ t) ∧
            r = scrapeCard card (page.selectedLabel.getD app_name)) ∧
    get_architecture_metrics_from_overview
        ⟨some "Acme Suite".toList,
          [⟨"Acme Suite Architecture Rating: B".toList, none, none, none, none⟩]⟩ [] =
      some (scrapeCard ⟨"Acme Suite Architecture Rating: B".toList, none, none, none, none⟩
        "Acme Suite".toList) ∧
    normalize "Acme Suite".toList = "acmesuite".toList ∧
    normalize "Acme Suite Architecture Rating: B".toList ≠ "acmesuite".toList := by
  refine ⟨?_, ?_, by decide, by decide, by decide⟩
  · intro page name
    have hiff : get_architecture_metrics_from_overview page name = none ↔
        page.cards.find?
          (fun card => containsSub (normalize (page.selectedLabel.getD name))
            (normalize card.text)) = none := by
      cases hf : page.cards.find?
          (fun card => containsSub (normalize (page.selectedLabel.getD name))
            (normalize card.text)) with
      | none => simp [get_architecture_metrics_from_overview, hf]
      | some c => simp [get_architecture_metrics_from_overview, hf]
    rw [hiff, List.find?_eq_none]
    constructor
    · intro h card hc hex
      exact h card hc ((containsSub_iff _ _).mpr hex)
    · intro h card hc hb
      exact h card hc ((containsSub_iff _ _).mp hb)
  · intro page name r h
    cases hf : page.cards.find?
        (fun card => containsSub (normalize (page.selectedLabel.getD name))
          (normalize card.text)) with
    | none =>
        rw [get_architecture_metrics_from_overview] at h
        simp only [hf] at h
        exact Option.noConfusion h
    | some card =>
        have hr : r = scrapeCard card (page.selectedLabel.getD name) := by
          rw [get_architecture_metrics_from_overview] at h
          simp only [hf, Option.some.injEq] at h
          exact h.symm
        obtain ⟨hb, pre, post, hsplit, hpre⟩ := find?_first hf
        refine ⟨pre, card, post, hsplit, (containsSub_iff _ _).mp hb, ?_, hr⟩
        intro c hc hex
        have hfalse := hpre c hc
        rw [(containsSub_iff _ _).mpr hex] at hfalse
        cases hfalse

/-- Witness for C4 at the one-card Acme Suite overview page. -/
theorem C4_overview_substring_selection_witness :
    ∃ pre card post,
      (OverviewPage.mk (some "Acme Suite".toList)
          [⟨"Acme Suite Architecture Rating: B".toList, none, none, none, none⟩]).cards =
        pre ++ card :: post ∧
      (∃ p t, normalize card.text =
        p ++ normalize ((OverviewPage.mk (some "Acme Suite".toList)
          [⟨"Acme Suite Architecture Rating: B".toList, none, none, none, none⟩]).selectedLabel.getD []) ++ t) ∧
      (∀ c ∈ pre, ¬∃ p t, normalize c.text =
        p ++ normalize ((OverviewPage.mk (some "Acme Suite".toList)
          [⟨"Acme Suite Architecture Rating: B".toList, none, none, none, none⟩]).selectedLabel.getD []) ++ t) ∧
      scrapeCard ⟨"Acme Suite Architecture Rating: B".toList, none, none, none, none⟩
          "Acme Suite".toList =
        scrapeCard card ((OverviewPage.mk (some "Acme Suite".toList)
          [⟨"Acme Suite Architecture Rating: B".toList, none, none, none, none⟩]).selectedLabel.getD []) :=
  C4_overview_substring_selection.2.1
    ⟨some "Acme Suite".toList,
      [⟨"Acme Suite Architecture Rating: B".toList, none, none, none, none⟩]⟩ []
    (scrapeCard ⟨"Acme Suite Architecture Rating: B".toList, none, none, none, none⟩
      "Acme Suite".toList) (by decide)

/-- C5 counterexample: the claim as stated fails on the code in both
directions.  A text that does contain the line Total 10 2 20% 35% can
return 2 instead of 35, because the search takes the leftmost match of
the whole text; and a text none of whose lines matches the pattern can
still succeed, because the whitespace class of the pattern also matches
newlines, so a match may span lines. -/
theorem C5_pdf_total_line_counterexample :
    ("Total 10 2 20% 35%".toList ∈
        linesOf ("Total 1 1 1% 2%\nTotal 10 2 20% 35%").toList ∧
      extract_technical_debt ("Total 1 1 1% 2%\nTotal 10 2 20% 35%").toList = some 2 ∧
      (some 2 : Option Nat) ≠ some 35) ∧
    ((∀ l ∈ linesOf ("Total 10\n2 20% 35%").toList, reSearch totalPat l = none) ∧
      extract_technical_debt ("Total 10\n2 20% 35%").toList = some 35) := by
  refine ⟨⟨by decide, ?_, by decide⟩, ?_, ?_⟩
  · simp [extract_technical_debt, reSearch, reMatch, rePlus, reGrp, totalPat,
      isSpacePy, isDigitPy, digitsToNat]
  · intro l hl
    fin_cases hl <;>
      simp [reSearch, reMatch, rePlus, reGrp, totalPat, isSpacePy, isDigitPy]
  · simp [extract_technical_debt, reSearch, reMatch, rePlus, reGrp, totalPat,
      isSpacePy, isDigitPy, digitsToNat]

/-- C5 amended: the PDF adapter returns the percentage captured at the
leftmost position of the whole concatenated text where the Total-row
pattern matches, so the single-line text Total 10 2 20% 35% yields 35,
and the invocation terminates as a failure exactly when the pattern
matches at no position of the text. -/
theorem C5_pdf_total_leftmost :
    extract_technical_debt "Total 10 2 20% 35%".toList = some 35 ∧
    (∀ text : List Char,
        extract_technical_debt text = none ↔
          ∀ i, i ≤ text.length → reMatch totalPat (text.drop i) = none) ∧
    (∀ (text g : List Char), reSearch totalPat text = some g →
        extract_technical_debt text = some (digitsToNat g) ∧
        ∃ i, i ≤ text.length ∧ reMatch totalPat (text.drop i) = some g ∧
          ∀ j, j < i → reMatch totalPat (text.drop j) = none) := by
  refine ⟨?_, ?_, ?_⟩
  · simp [extract_technical_debt, reSearch, reMatch, rePlus, reGrp, totalPat,
      isSpacePy, isDigitPy, digitsToNat]
  · intro text
    have hmap : extract_technical_debt text = none ↔ reSearch totalPat text = none := by
      cases hr : reSearch totalPat text with
      | none => simp [extract_technical_debt, hr]
      | some g => simp [extract_technical_debt, hr]
    rw [hmap, reSearch_eq_none_iff]
  · intro text g h
    exact ⟨by simp [extract_technical_debt, h], reSearch_eq_some h⟩

/-- Witness for the amended C5 at the single Total line, whose leftmost
match captures the digits 3 5. -/
theorem C5_pdf_total_leftmost_witness :
    extract_technical_debt "Total 10 2 20% 35%".toList = some (digitsToNat ['3', '5']) ∧
      ∃ i, i ≤ ("Total 10 2 20% 35%".toList).length ∧
        reMatch totalPat (("Total 10 2 20% 35%".toList).drop i) = some ['3', '5'] ∧
        ∀ j, j < i → reMatch totalPat (("Total 10 2 20% 35%".toList).drop j) = none :=
  C5_pdf_total_leftmost.2.2 "Total 10 2 20% 35%".toList ['3', '5'] (by
    simp [reSearch, reMatch, rePlus, reGrp, totalPat, isSpacePy, isDigitPy])

end ArchPipeline
